import Mathlib

/-
Verification of the guifuzz fuzzing engine core against its design document.

The development shallowly embeds the data model and the operations of the
fuzzer:
  * the action/input model and the shared corpus state
    (src/guifuzz/src/lib.rs, `FuzzerAction`, `Statistics`);
  * the coverage-merge and crash-merge sections of the worker loop
    (src/mesos/src/main.rs, `worker`, and `record_input`);
  * the mutation engine (src/guifuzz/src/lib.rs, `mutate`);
  * the generator loop (src/guifuzz/src/lib.rs, `generator`);
  * the xorshift PRNG step (src/fuzzer/src/main.rs, `Window::rand`).

Rust `u64`/`usize` values are modelled as `Nat`, with `% 2^64` applied
exactly where 64-bit wrapping occurs.  Hash maps and hash sets are
modelled as association lists / duplicate-free lists; the insertion-order
view matches the code, which keeps explicit `Vec` mirrors
(`input_list`, `unique_actions`) next to the hashed containers.
Fallible or panicking code paths are modelled in `Option` (a `none`
models a Rust panic, e.g. `%` with a zero divisor).
The per-thread RNG is modelled as an arbitrary stream `Nat → Nat` of
drawn 64-bit values, consumed in program order; theorems quantify over
all streams, so they hold in particular for the xorshift stream used by
the code.
-/

namespace Guifuzz

/-- The `FuzzerAction` enum of src/guifuzz/src/lib.rs: one synthetic UI
action. `idx`, `key` are Rust `usize`, `menu_id` is `u32`; all are
modelled as `Nat`. -/
inductive FuzzerAction where
  | LeftClick (idx : Nat)
  | Close
  | MenuAction (menu_id : Nat)
  | KeyPress (key : Nat)
deriving DecidableEq, Repr

/-- A fuzz input: `type FuzzInput = Arc<Vec<FuzzerAction>>`.  The `Arc` is
shared-ownership of an immutable vector, so a fuzz input is just its
action sequence; structural equality of the sequence is the identity
used by every corpus container. -/
abbrev FuzzInput := List FuzzerAction

/-- A coverage key: the `(Arc<String>, usize)` pair of module name and
offset used as key of `coverage_db`. -/
abbrev CovKey := String × Nat

/-- Lookup in an association list, modelling `HashMap::get` /
`contains_key`. -/
def dbLookup {α β : Type} [DecidableEq α] : List (α × β) → α → Option β
  | [], _ => none
  | (k', v) :: rest, k => if k' = k then some v else dbLookup rest k

/-- Insertion into an association list, modelling `HashMap::insert`:
an existing binding for the key is overwritten, otherwise the new
binding is appended. -/
def dbInsert {α β : Type} [DecidableEq α] : List (α × β) → α → β → List (α × β)
  | [], k, v => [(k, v)]
  | (k', v') :: rest, k, v =>
    if k' = k then (k, v) :: rest else (k', v') :: dbInsert rest k v

/-- The shared `Statistics` structure of src/guifuzz/src/lib.rs.  Hash
maps become association lists and `HashSet`s become duplicate-free
lists.  The extra ghost field `persisted` records, in order, every call
of `record_input` (the on-disk persistence of src/mesos/src/main.rs);
it is not a field of the Rust struct but bookkeeping for the
persistence claims. -/
structure Statistics where
  fuzz_cases : Nat := 0
  coverage_db : List (CovKey × FuzzInput) := []
  input_db : List FuzzInput := []
  input_list : List FuzzInput := []
  unique_action_set : List FuzzerAction := []
  unique_actions : List FuzzerAction := []
  crashes : Nat := 0
  crash_db : List (String × FuzzInput) := []
  persisted : List FuzzInput := []

/-- The state produced by `Statistics::default()`: everything empty /
zero. -/
def initStats : Statistics := {}

/-- The action-registration loop of src/mesos/src/main.rs lines 120-124
and 155-159: for each action of the input, if `unique_action_set.insert`
reports a new element, push it onto `unique_actions`. -/
def registerActions (uaSet uaList : List FuzzerAction) :
    List FuzzerAction → List FuzzerAction × List FuzzerAction
  | [] => (uaSet, uaList)
  | a :: rest =>
    if a ∈ uaSet then registerActions uaSet uaList rest
    else registerActions (uaSet ++ [a]) (uaList ++ [a]) rest

/-- The shared input-promotion block of src/mesos/src/main.rs (lines
113-125 in the coverage path, lines 148-160 in the crash path):
`if stats.input_db.insert(fuzz_input) { input_list.push; record_input;
register actions }`.  `HashSet::insert` returns `true` exactly when the
element was absent, so when `inp` is already a member nothing changes. -/
def addInput (s : Statistics) (inp : FuzzInput) : Statistics :=
  if inp ∈ s.input_db then s
  else
    { s with
      input_db := s.input_db ++ [inp],
      input_list := s.input_list ++ [inp],
      persisted := s.persisted ++ [inp],
      unique_action_set := (registerActions s.unique_action_set s.unique_actions inp).1,
      unique_actions := (registerActions s.unique_action_set s.unique_actions inp).2 }

/-- One lock-held section of the coverage loop of `worker`
(src/mesos/src/main.rs lines 110-129), for a single coverage key: if the
key is absent from the global `coverage_db`, promote the input into the
corpus and record the key with this input as its value; if the key is
present, nothing happens. -/
def mergeCoverageKey (s : Statistics) (inp : FuzzInput) (key : CovKey) : Statistics :=
  if (dbLookup s.coverage_db key).isSome then s
  else
    let s' := addInput s inp
    { s' with coverage_db := dbInsert s'.coverage_db key inp }

/-- The whole coverage loop, one `mergeCoverageKey` per surviving
coverage entry, in iteration order. -/
def mergeCoverage (s : Statistics) (inp : FuzzInput) (ks : List CovKey) : Statistics :=
  ks.foldl (fun s k => mergeCoverageKey s inp k) s

/-- The crash branch of `worker` (src/mesos/src/main.rs lines 141-166):
bump the crash counter, promote the input unconditionally, then
overwrite `crash_db[crashname]` with this input. -/
def mergeCrash (s : Statistics) (inp : FuzzInput) (sig : String) : Statistics :=
  let s₁ := { s with crashes := s.crashes + 1 }
  let s₂ := addInput s₁ inp
  { s₂ with crash_db := dbInsert s₂.crash_db sig inp }

/-- One atomic lock-held update of the global statistics: either one
coverage-key merge or one crash merge.  A run of the process performs
some interleaved sequence of these operations. -/
inductive MergeOp where
  | cov (inp : FuzzInput) (key : CovKey)
  | crash (inp : FuzzInput) (sig : String)

/-- Apply one merge operation. -/
def applyOp (s : Statistics) : MergeOp → Statistics
  | .cov inp key => mergeCoverageKey s inp key
  | .crash inp sig => mergeCrash s inp sig

/-- Apply a sequence of merge operations left to right. -/
def applyOps (s : Statistics) (ops : List MergeOp) : Statistics :=
  ops.foldl applyOp s

/-- Sample operation sequence used by concrete witnesses: one input
found via coverage, one crash of the empty input, a repeated coverage
merge of the first input. -/
def opsSample : List MergeOp :=
  [MergeOp.cov [FuzzerAction.Close] ("m", 1),
   MergeOp.crash [] "sig",
   MergeOp.cov [FuzzerAction.Close] ("m", 1)]

/-! The mutation engine (src/guifuzz/src/lib.rs, `mutate`).  The
per-thread RNG is an arbitrary stream of drawn values, indexed in call
order; `none` models a Rust panic (in particular `%` with divisor 0). -/

/-- An RNG modelled as the stream of values returned by successive
`rng.rand()` calls. -/
abbrev RngStream := Nat → Nat

/-- Rust `a % b`: panics (here `none`) when `b = 0`. -/
def checkedMod (a b : Nat) : Option Nat :=
  if b = 0 then none else some (a % b)

/-- A contiguous sub-range `l[start..stop]` of a Rust slice. -/
def listSlice {α : Type} (l : List α) (start stop : Nat) : List α :=
  (l.drop start).take (stop - start)

/-- Mutation pass 0 of `mutate` (lib.rs lines 103-127): splice a random
slice of a random donor input over a random slice of the working input.
Returns the new working input and the next RNG index. -/
def spliceOp (stats : Statistics) (rng : RngStream) (k : Nat)
    (input : List FuzzerAction) : Option (List FuzzerAction × Nat) :=
  if input.length = 0 then some (input, k) else do
    let inp_start ← checkedMod (rng k) input.length
    let inp_length ← checkedMod (rng (k+1)) (rng (k+2) % 64 + 1)
    let inp_end := min (inp_start + inp_length) input.length
    let donor_idx ← checkedMod (rng (k+3)) stats.input_list.length
    let donor_input ← stats.input_list.get? donor_idx
    if donor_input.length = 0 then some (input, k+4) else do
      let donor_start ← checkedMod (rng (k+4)) donor_input.length
      let donor_length ← checkedMod (rng (k+5)) (rng (k+6) % 64 + 1)
      let donor_end := min (donor_start + donor_length) donor_input.length
      some (input.take inp_start ++ listSlice donor_input donor_start donor_end
            ++ input.drop inp_end, k+7)

/-- Mutation pass 1 of `mutate` (lib.rs lines 128-140): delete a random
slice of the working input. -/
def deleteOp (rng : RngStream) (k : Nat) (input : List FuzzerAction) :
    Option (List FuzzerAction × Nat) :=
  if input.length = 0 then some (input, k) else do
    let inp_start ← checkedMod (rng k) input.length
    let inp_length ← checkedMod (rng (k+1)) (rng (k+2) % 64 + 1)
    let inp_end := min (inp_start + inp_length) input.length
    some (input.take inp_start ++ input.drop inp_end, k+3)

/-- Mutation pass 2 of `mutate` (lib.rs lines 141-148): re-insert a copy
of the element at a random index a random number of times. -/
def repeatOp (rng : RngStream) (k : Nat) (input : List FuzzerAction) :
    Option (List FuzzerAction × Nat) :=
  if input.length = 0 then some (input, k) else do
    let sel ← checkedMod (rng k) input.length
    let count ← checkedMod (rng (k+1)) (rng (k+2) % 64 + 1)
    let x ← input.get? sel
    some (input.take sel ++ List.replicate count x ++ input.drop sel, k+3)

/-- Mutation pass 3 of `mutate` (lib.rs lines 149-172): insert a random
donor slice at a random position of the working input. -/
def insertSliceOp (stats : Statistics) (rng : RngStream) (k : Nat)
    (input : List FuzzerAction) : Option (List FuzzerAction × Nat) :=
  if input.length = 0 then some (input, k) else do
    let inp_index ← checkedMod (rng k) input.length
    let donor_idx ← checkedMod (rng (k+1)) stats.input_list.length
    let donor_input ← stats.input_list.get? donor_idx
    if donor_input.length = 0 then some (input, k+2) else do
      let donor_start ← checkedMod (rng (k+2)) donor_input.length
      let donor_length ← checkedMod (rng (k+3)) (rng (k+4) % 64 + 1)
      let donor_end := min (donor_start + donor_length) donor_input.length
      some (input.take inp_index ++ listSlice donor_input donor_start donor_end
            ++ input.drop inp_index, k+5)

/-- Mutation pass 4 of `mutate` (lib.rs lines 173-183): insert a random
known action from the corpus-wide registry at a random position.
Skipped when the registry or the working input is empty. -/
def insertKnownOp (stats : Statistics) (rng : RngStream) (k : Nat)
    (input : List FuzzerAction) : Option (List FuzzerAction × Nat) :=
  if stats.unique_actions.length = 0 ∨ input.length = 0 then some (input, k)
  else do
    let aIdx ← checkedMod (rng k) stats.unique_actions.length
    let rand_action ← stats.unique_actions.get? aIdx
    let pos ← checkedMod (rng (k+1)) input.length
    some (input.take pos ++ [rand_action] ++ input.drop pos, k+2)

/-- The `match sel` dispatch of one mutation pass (lib.rs lines
100-185): `sel` is the value of `rng.rand() % 5`; the wildcard arm
models the `panic!("Unreachable")`. -/
def dispatchOp (stats : Statistics) (rng : RngStream) (sel k : Nat)
    (input : List FuzzerAction) : Option (List FuzzerAction × Nat) :=
  match sel with
  | 0 => spliceOp stats rng k input
  | 1 => deleteOp rng k input
  | 2 => repeatOp rng k input
  | 3 => insertSliceOp stats rng k input
  | 4 => insertKnownOp stats rng k input
  | _ + 5 => none

/-- The mutation-pass loop of `mutate` (lib.rs lines 99-186): `n`
remaining passes, each dispatching on `rand() % 5` among the five
operators. -/
def mutLoop (stats : Statistics) (rng : RngStream) :
    Nat → Nat → List FuzzerAction → Option (List FuzzerAction × Nat)
  | k, 0, input => some (input, k)
  | k, n+1, input => do
    let sel ← checkedMod (rng k) 5
    let step ← dispatchOp stats rng sel (k+1) input
    mutLoop stats rng step.2 n step.1

/-- The number of mutation passes drawn by `mutate`:
`(rng.rand() & 0x1f) + 1` (lib.rs line 99). -/
def numPasses (rng : RngStream) : Nat := (rng 1 &&& 0x1f) + 1

/-- The `mutate` entry point (lib.rs lines 86-189): `rng 0` selects the
seed input among `input_list`, `rng 1` the pass count; the passes
consume the stream from index 2 on. -/
def mutate (stats : Statistics) (rng : RngStream) :
    Option (List FuzzerAction) := do
  let input_sel ← checkedMod (rng 0) stats.input_list.length
  let input ← stats.input_list.get? input_sel
  let res ← mutLoop stats rng 2 (numPasses rng) input
  some res.1

/-! The xorshift PRNG step (src/fuzzer/src/main.rs, `Window::rand`). -/

/-- The modulus of Rust `u64` arithmetic. -/
def U64 : Nat := 2 ^ 64

/-- The `Window::rand` body (fuzzer/src/main.rs lines 169-177): three
xorshift rounds on the 64-bit seed cell; the result is the pair
(new value of `self.seed`, returned value — `seed as usize` is the
identity on 64-bit targets).  A Rust `u64` left shift drops the bits
shifted past bit 63, hence the `% U64`; the right shift and the xors
cannot leave the 64-bit range, so they carry no reduction. -/
def windowRand (seed : Nat) : Nat × Nat :=
  let s1 := (seed ^^^ (seed <<< 13)) % U64
  let s2 := s1 ^^^ (s1 >>> 17)
  let s3 := (s2 ^^^ (s2 <<< 43)) % U64
  (s3, s3)

/-- One left shift/xor xorshift round with the state masked to 64
bits. -/
def xorShiftLeft (n s : Nat) : Nat := (s ^^^ (s <<< n)) % U64

/-- One right shift/xor xorshift round with the state masked to 64
bits. -/
def xorShiftRight (n s : Nat) : Nat := (s ^^^ (s >>> n)) % U64

/-- The spec's reading of the step: the composition of the 13-left,
17-right, 43-left shift/xor rounds. -/
def xorshiftStep (s : Nat) : Nat :=
  xorShiftLeft 43 (xorShiftRight 17 (xorShiftLeft 13 s))

/-- The stream of values returned by successive `rand()` calls from a
fixed starting seed: the n-th output equals the stored state after
`n+1` steps, since `rand` returns exactly the state it stores. -/
def randSeq (seed : Nat) (n : Nat) : Nat :=
  (fun s => (windowRand s).1)^[n+1] seed

/-! Input persistence (src/mesos/src/main.rs, `record_input`). -/

/-- An injective numeric code of one action, used by the modelled
hasher below. -/
def actionCode : FuzzerAction → Nat
  | .LeftClick idx => 4 * idx
  | .Close => 1
  | .MenuAction menu_id => 4 * menu_id + 2
  | .KeyPress key => 4 * key + 3

/-- Modelled from the spec: `record_input` hashes the input with std's
`DefaultHasher`, which `DefaultHasher::new()` creates with fixed keys —
the 64-bit hash is therefore a pure function of the hashed action
sequence.  The hasher itself (SipHash-1-3) is standard-library code
outside this repository, so it is modelled as a fixed pure structural
64-bit fold over the action sequence. -/
def defaultHash (inp : FuzzInput) : Nat :=
  inp.foldl (fun h a => ((h + actionCode a + 1) * 0x100000001b3) % U64)
    0xcbf29ce484222325

/-- Lowercase hexadecimal digit for a value in `0..16`. -/
def hexDigit (n : Nat) : Char :=
  if n < 10 then Char.ofNat (48 + n) else Char.ofNat (87 + n)

/-- The `{:016x}` formatting of a 64-bit value: exactly 16 lowercase
hex digits, zero padded, most significant first. -/
def hex16 (n : Nat) : List Char :=
  (List.range 16).reverse.map (fun i => hexDigit (n / 16 ^ i % 16))

/-- The path `record_input` persists an input to
(mesos/src/main.rs line 23): `inputs/<16-hex-digit-content-hash>.input`. -/
def recordPath (inp : FuzzInput) : String :=
  "inputs/" ++ String.mk (hex16 (defaultHash inp)) ++ ".input"

/-! The generator (src/guifuzz/src/lib.rs, `generator`). -/

/-- Environment of one generator run: the per-iteration results of the
UI-automation collaborator calls.  `windows i` is the result of
`enumerate_subwindows()` during iteration `i` (`none` models `Err`),
`menus i` that of `enum_menus()`.  Control handles are opaque, so a
listing is a list of units / menu identifiers. -/
structure GenEnv where
  attach_ok : Bool
  windows : Nat → Option (List Unit)
  menus : Nat → Option (List Nat)

/-- Result of a generator run.  `panicked` models a Rust panic (`%` by
zero on an empty listing), `outOfFuel` an unfinished run (the Rust loop
is unbounded). -/
inductive GenResult where
  | ok (actions : List FuzzerAction)
  | panicked
  | attachFailed
  | outOfFuel
deriving DecidableEq, Repr

/-- The generator loop (lib.rs lines 201-252), iteration `i`, RNG index
`k`, accumulated `actions`.  Each iteration: enumerate controls (an
`Err` returns `Ok(actions)`; an empty listing hits `rand() %
sub_windows.len()` with len 0 and panics), click a random control,
press a random digit key, with probability 1/32 press a random byte
key, with probability 1/256 close, and with probability 1/32 pick a
random menu id (if `enum_menus` succeeds; an empty menu set panics on
`rand() % menus.len()`). -/
def genLoop (env : GenEnv) (rng : RngStream) :
    Nat → Nat → List FuzzerAction → Nat → GenResult
  | _, _, _, 0 => .outOfFuel
  | i, k, acts, fuel+1 =>
    match env.windows i with
    | none => .ok acts
    | some ws =>
      if ws.length = 0 then .panicked
      else
        let acts := acts ++ [FuzzerAction.LeftClick (rng k % ws.length)]
        let acts := acts ++ [FuzzerAction.KeyPress (rng (k+1) % 10 + 48)]
        let p := if rng (k+2) &&& 0x1f = 0 then
            (acts ++ [FuzzerAction.KeyPress (rng (k+3) % 256)], k+4)
          else (acts, k+3)
        let q := if rng p.2 &&& 0xff = 0 then
            (p.1 ++ [FuzzerAction.Close], p.2 + 1)
          else (p.1, p.2 + 1)
        if rng q.2 &&& 0x1f = 0 then
          match env.menus i with
          | none => genLoop env rng (i+1) (q.2 + 1) q.1 fuel
          | some ms =>
            if ms.length = 0 then .panicked
            else
              genLoop env rng (i+1) (q.2 + 2)
                (q.1 ++ [FuzzerAction.MenuAction
                  (ms.getD (rng (q.2 + 1) % ms.length) 0)]) fuel
        else genLoop env rng (i+1) (q.2 + 1) q.1 fuel

/-- The `generator` entry point (lib.rs lines 191-253): attach to the
target window, then explore.  `fuel` bounds the number of modelled
iterations of the unbounded Rust loop. -/
def generator (env : GenEnv) (rng : RngStream) (fuel : Nat) : GenResult :=
  if env.attach_ok then genLoop env rng 0 0 [] fuel else .attachFailed

/-- Environment whose control enumeration succeeds with an EMPTY
listing: the target window is still there but reports no children. -/
def envEmptyEnum : GenEnv :=
  { attach_ok := true, windows := fun _ => some [], menus := fun _ => none }

/-- Environment whose control enumeration fails at once (window gone). -/
def envFailNow : GenEnv :=
  { attach_ok := true, windows := fun _ => none, menus := fun _ => none }

/-- Environment whose control enumeration always succeeds with one
control and whose menu enumeration always fails. -/
def envAlwaysUp : GenEnv :=
  { attach_ok := true, windows := fun _ => some [()], menus := fun _ => none }

/-! Association-list facts. -/

theorem dbLookup_dbInsert_self {α β : Type} [DecidableEq α]
    (db : List (α × β)) (k : α) (v : β) :
    dbLookup (dbInsert db k v) k = some v := by
  induction db with
  | nil => simp [dbInsert, dbLookup]
  | cons hd tl ih =>
    obtain ⟨k', v'⟩ := hd
    by_cases h : k' = k
    · simp [dbInsert, h, dbLookup]
    · simp [dbInsert, h, dbLookup, ih]

theorem dbLookup_dbInsert_ne {α β : Type} [DecidableEq α]
    (db : List (α × β)) (k k' : α) (v : β) (h : k ≠ k') :
    dbLookup (dbInsert db k v) k' = dbLookup db k' := by
  induction db with
  | nil => simp [dbInsert, dbLookup, h]
  | cons hd tl ih =>
    obtain ⟨k₀, v₀⟩ := hd
    by_cases hk : k₀ = k
    · subst hk; simp [dbInsert, dbLookup, h]
    · simp [dbInsert, hk, dbLookup, ih]

theorem mem_dbInsert {α β : Type} [DecidableEq α]
    (db : List (α × β)) (k : α) (v : β) :
    ∀ kv ∈ dbInsert db k v, kv = (k, v) ∨ kv ∈ db := by
  induction db with
  | nil => simp [dbInsert]
  | cons hd tl ih =>
    obtain ⟨k₀, v₀⟩ := hd
    by_cases hk : k₀ = k
    · subst hk
      intro kv hkv
      simp only [dbInsert, if_true, eq_self_iff_true, List.mem_cons] at hkv
      rcases hkv with h | h
      · exact Or.inl h
      · exact Or.inr (List.mem_cons_of_mem _ h)
    · intro kv hkv
      simp only [dbInsert, if_neg hk, List.mem_cons] at hkv
      rcases hkv with h | h
      · exact Or.inr (h ▸ List.mem_cons_self _ _)
      · rcases ih kv h with h' | h'
        · exact Or.inl h'
        · exact Or.inr (List.mem_cons_of_mem _ h')

/-! Facts about the input-promotion block. -/

theorem addInput_of_mem {s : Statistics} {inp : FuzzInput}
    (h : inp ∈ s.input_db) : addInput s inp = s := by
  simp [addInput, h]

theorem coverage_db_addInput (s : Statistics) (inp : FuzzInput) :
    (addInput s inp).coverage_db = s.coverage_db := by
  unfold addInput; split <;> rfl

theorem crash_db_addInput (s : Statistics) (inp : FuzzInput) :
    (addInput s inp).crash_db = s.crash_db := by
  unfold addInput; split <;> rfl

theorem mem_input_db_addInput_self (s : Statistics) (inp : FuzzInput) :
    inp ∈ (addInput s inp).input_db := by
  unfold addInput; split
  · assumption
  · simp

theorem mem_input_db_addInput_mono {s : Statistics} {x : FuzzInput}
    (inp : FuzzInput) (h : x ∈ s.input_db) :
    x ∈ (addInput s inp).input_db := by
  unfold addInput; split
  · exact h
  · exact List.mem_append_left _ h

theorem persisted_addInput_of_mem {s : Statistics} {inp : FuzzInput}
    (h : inp ∈ s.input_db) : (addInput s inp).persisted = s.persisted := by
  rw [addInput_of_mem h]

/-! Facts about the coverage merge. -/

theorem mergeCoverageKey_lookup_some {s : Statistics} {K : CovKey} {v : FuzzInput}
    (inp : FuzzInput) (key : CovKey)
    (h : dbLookup s.coverage_db K = some v) :
    dbLookup (mergeCoverageKey s inp key).coverage_db K = some v := by
  unfold mergeCoverageKey
  by_cases hp : (dbLookup s.coverage_db key).isSome
  · simp [hp, h]
  · have hne : key ≠ K := by
      intro hkey
      rw [hkey, h] at hp
      exact hp rfl
    simp only [hp, if_false, Bool.false_eq_true]
    rw [coverage_db_addInput, dbLookup_dbInsert_ne _ _ _ _ hne]
    exact h

theorem mergeCoverageKey_lookup_other {s : Statistics} {K : CovKey}
    (inp : FuzzInput) (key : CovKey) (hne : key ≠ K) :
    dbLookup (mergeCoverageKey s inp key).coverage_db K =
      dbLookup s.coverage_db K := by
  unfold mergeCoverageKey
  by_cases hp : (dbLookup s.coverage_db key).isSome
  · simp [hp]
  · simp only [hp, if_false, Bool.false_eq_true]
    rw [coverage_db_addInput, dbLookup_dbInsert_ne _ _ _ _ hne]

theorem mergeCoverageKey_lookup_new {s : Statistics} {key : CovKey}
    (inp : FuzzInput) (h : dbLookup s.coverage_db key = none) :
    dbLookup (mergeCoverageKey s inp key).coverage_db key = some inp := by
  unfold mergeCoverageKey
  simp only [h, Option.isSome_none, Bool.false_eq_true, if_false]
  rw [coverage_db_addInput, dbLookup_dbInsert_self]

theorem mergeCrash_coverage_db (s : Statistics) (inp : FuzzInput) (sig : String) :
    (mergeCrash s inp sig).coverage_db = s.coverage_db := by
  unfold mergeCrash
  rw [coverage_db_addInput]

theorem applyOp_lookup_some {s : Statistics} {K : CovKey} {v : FuzzInput}
    (op : MergeOp) (h : dbLookup s.coverage_db K = some v) :
    dbLookup (applyOp s op).coverage_db K = some v := by
  cases op with
  | cov inp key => exact mergeCoverageKey_lookup_some inp key h
  | crash inp sig => rw [applyOp, mergeCrash_coverage_db]; exact h

theorem applyOps_lookup_some {s : Statistics} {K : CovKey} {v : FuzzInput}
    (ops : List MergeOp) (h : dbLookup s.coverage_db K = some v) :
    dbLookup (applyOps s ops).coverage_db K = some v := by
  induction ops generalizing s with
  | nil => exact h
  | cons op rest ih => exact ih (applyOp_lookup_some op h)

theorem mergeCoverage_lookup_some {s : Statistics} {K : CovKey} {v : FuzzInput}
    (inp : FuzzInput) (ks : List CovKey)
    (h : dbLookup s.coverage_db K = some v) :
    dbLookup (mergeCoverage s inp ks).coverage_db K = some v := by
  induction ks generalizing s with
  | nil => exact h
  | cons k rest ih => exact ih (mergeCoverageKey_lookup_some inp k h)

theorem mergeCoverage_lookup_of_new {s : Statistics} {K : CovKey}
    (inp : FuzzInput) (ks : List CovKey)
    (habsent : dbLookup s.coverage_db K = none) (hK : K ∈ ks) :
    dbLookup (mergeCoverage s inp ks).coverage_db K = some inp := by
  induction ks generalizing s with
  | nil => cases hK
  | cons k rest ih =>
    by_cases hkK : k = K
    · subst hkK
      exact mergeCoverage_lookup_some inp rest
        (mergeCoverageKey_lookup_new inp habsent)
    · rcases List.mem_cons.mp hK with h | h
      · exact absurd h.symm hkK
      · exact ih ((mergeCoverageKey_lookup_other inp k hkK).trans habsent) h

/-! Corpus well-formedness: the invariants maintained by every merge
operation. -/

theorem nodup_append_singleton {α : Type} {l : List α} {a : α}
    (hnd : l.Nodup) (h : a ∉ l) : (l ++ [a]).Nodup := by
  simp [List.nodup_append, hnd, h]

theorem registerActions_eq_nodup :
    ∀ (l : List FuzzerAction) (uaSet uaList : List FuzzerAction),
      uaSet = uaList → uaList.Nodup →
      (registerActions uaSet uaList l).1 = (registerActions uaSet uaList l).2 ∧
      (registerActions uaSet uaList l).2.Nodup
  | [], _, _, heq, hnd => ⟨heq, hnd⟩
  | a :: rest, uaSet, uaList, heq, hnd => by
    by_cases h : a ∈ uaSet
    · simp only [registerActions, if_pos h]
      exact registerActions_eq_nodup rest uaSet uaList heq hnd
    · simp only [registerActions, if_neg h]
      subst heq
      exact registerActions_eq_nodup rest _ _ rfl
        (nodup_append_singleton hnd h)

/-- The corpus-state invariant: `input_db` and `input_list` are the same
duplicate-free collection, `persisted` mirrors `input_list`, the action
registry list mirrors the action set, and every `coverage_db` value is a
corpus member. -/
structure WF (s : Statistics) : Prop where
  dbEq : s.input_db = s.input_list
  nodup : s.input_db.Nodup
  pers : s.persisted = s.input_list
  uaEq : s.unique_action_set = s.unique_actions
  uaNodup : s.unique_actions.Nodup
  covMem : ∀ kv ∈ s.coverage_db, kv.2 ∈ s.input_db

theorem WF_initStats : WF initStats :=
  ⟨rfl, List.nodup_nil, rfl, rfl, List.nodup_nil, by intro kv h; cases h⟩

theorem WF.addInput {s : Statistics} (w : WF s) (inp : FuzzInput) :
    WF (addInput s inp) := by
  unfold Guifuzz.addInput
  by_cases h : inp ∈ s.input_db
  · simpa [h] using w
  · simp only [h, if_false]
    obtain ⟨heq, hnd⟩ := registerActions_eq_nodup inp s.unique_action_set
      s.unique_actions w.uaEq w.uaNodup
    refine ⟨?_, ?_, ?_, heq, hnd, ?_⟩
    · rw [w.dbEq]
    · exact nodup_append_singleton w.nodup h
    · rw [w.pers]
    · intro kv hkv
      exact List.mem_append_left _ (w.covMem kv hkv)

theorem WF.mergeCoverageKey {s : Statistics} (w : WF s)
    (inp : FuzzInput) (key : CovKey) :
    WF (mergeCoverageKey s inp key) := by
  unfold Guifuzz.mergeCoverageKey
  by_cases hp : (dbLookup s.coverage_db key).isSome
  · simpa [hp] using w
  · simp only [hp, Bool.false_eq_true, if_false]
    have wa := w.addInput inp
    refine ⟨wa.dbEq, wa.nodup, wa.pers, wa.uaEq, wa.uaNodup, ?_⟩
    intro kv hkv
    rw [coverage_db_addInput] at hkv
    rcases mem_dbInsert _ _ _ kv hkv with h | h
    · subst h
      exact mem_input_db_addInput_self s inp
    · exact mem_input_db_addInput_mono inp (w.covMem kv h)

theorem WF.mergeCrash {s : Statistics} (w : WF s)
    (inp : FuzzInput) (sig : String) :
    WF (mergeCrash s inp sig) := by
  unfold Guifuzz.mergeCrash
  have w₁ : WF { s with crashes := s.crashes + 1 } :=
    ⟨w.dbEq, w.nodup, w.pers, w.uaEq, w.uaNodup, w.covMem⟩
  have wa := w₁.addInput inp
  exact ⟨wa.dbEq, wa.nodup, wa.pers, wa.uaEq, wa.uaNodup, wa.covMem⟩

theorem WF.applyOp {s : Statistics} (w : WF s) (op : MergeOp) :
    WF (applyOp s op) := by
  cases op with
  | cov inp key => exact w.mergeCoverageKey inp key
  | crash inp sig => exact w.mergeCrash inp sig

theorem WF_applyOps (s : Statistics) (w : WF s) (ops : List MergeOp) :
    WF (applyOps s ops) := by
  induction ops generalizing s with
  | nil => exact w
  | cons op rest ih => exact ih _ (w.applyOp op)

/-! Persistence and input-list stability when the input is already a
corpus member. -/

theorem mergeCoverageKey_stable_of_mem {s : Statistics} {inp : FuzzInput}
    (key : CovKey) (h : inp ∈ s.input_db) :
    (mergeCoverageKey s inp key).persisted = s.persisted ∧
    (mergeCoverageKey s inp key).input_list = s.input_list := by
  unfold Guifuzz.mergeCoverageKey
  by_cases hp : (dbLookup s.coverage_db key).isSome
  · simp [hp]
  · simp [hp, addInput_of_mem h]

theorem mergeCrash_stable_of_mem {s : Statistics} {inp : FuzzInput}
    (sig : String) (h : inp ∈ s.input_db) :
    (mergeCrash s inp sig).persisted = s.persisted ∧
    (mergeCrash s inp sig).input_list = s.input_list := by
  unfold Guifuzz.mergeCrash
  have h' : inp ∈ ({ s with crashes := s.crashes + 1 } : Statistics).input_db := h
  simp [addInput_of_mem h']

/-! Membership in `input_db` across merges. -/

theorem mem_input_db_mergeCrash_self (s : Statistics) (inp : FuzzInput)
    (sig : String) : inp ∈ (mergeCrash s inp sig).input_db :=
  mem_input_db_addInput_self _ inp

theorem mem_input_db_mergeCrash_mono {s : Statistics} {x : FuzzInput}
    (inp : FuzzInput) (sig : String) (h : x ∈ s.input_db) :
    x ∈ (mergeCrash s inp sig).input_db :=
  mem_input_db_addInput_mono inp h

theorem crash_db_mergeCrash (s : Statistics) (inp : FuzzInput) (sig : String) :
    (mergeCrash s inp sig).crash_db = dbInsert s.crash_db sig inp := by
  simp only [Guifuzz.mergeCrash, crash_db_addInput]

/-! Claim theorems for the corpus database. -/

/-- C1: first-write-wins for coverage.  If coverage key `K` is absent
and a coverage merge of input `I1` reaches `K`, then
`coverage_db[K] = I1`, and it still equals `I1` after a later coverage
merge of a different input `I2` that also reaches `K` and after any
further sequence of merge operations: a key already present in the
shared `coverage_db` is never overwritten for the lifetime of the
process. -/
theorem coverage_first_write_wins
    (s : Statistics) (I1 I2 : FuzzInput) (K : CovKey)
    (ks ks' : List CovKey) (ops : List MergeOp)
    (habsent : dbLookup s.coverage_db K = none) (hK : K ∈ ks) :
    dbLookup (mergeCoverage s I1 ks).coverage_db K = some I1 ∧
    dbLookup (applyOps (mergeCoverage (mergeCoverage s I1 ks) I2 ks')
      ops).coverage_db K = some I1 := by
  have h1 := mergeCoverage_lookup_of_new I1 ks habsent hK
  exact ⟨h1, applyOps_lookup_some ops (mergeCoverage_lookup_some I2 ks' h1)⟩

/-- Witness for C1: a concrete run where `("m", 1)` is first covered by
`[Close]` and later by `[]`, followed by one crash merge. -/
theorem coverage_first_write_wins_witness :
    dbLookup (mergeCoverage initStats [FuzzerAction.Close]
      [(("m", 1) : CovKey)]).coverage_db ("m", 1) = some [FuzzerAction.Close] ∧
    dbLookup (applyOps (mergeCoverage (mergeCoverage initStats [FuzzerAction.Close]
        [(("m", 1) : CovKey)]) [] [(("m", 1) : CovKey)])
      [MergeOp.crash [] "sig"]).coverage_db ("m", 1) = some [FuzzerAction.Close] :=
  coverage_first_write_wins initStats [FuzzerAction.Close] [] ("m", 1)
    [("m", 1)] [("m", 1)] [MergeOp.crash [] "sig"] rfl (List.mem_singleton.mpr rfl)

/-- C2: last-write-wins for crashes.  Merging a crash under signature
`S` with input `I1` and then a crash under the same `S` with input `I2`
leaves `crash_db[S] = I2`, and both `I1` and `I2` are members of
`input_db` afterwards. -/
theorem crash_last_write_wins (s : Statistics) (I1 I2 : FuzzInput) (S : String) :
    dbLookup (mergeCrash (mergeCrash s I1 S) I2 S).crash_db S = some I2 ∧
    I1 ∈ (mergeCrash (mergeCrash s I1 S) I2 S).input_db ∧
    I2 ∈ (mergeCrash (mergeCrash s I1 S) I2 S).input_db := by
  refine ⟨?_, ?_, ?_⟩
  · rw [crash_db_mergeCrash, dbLookup_dbInsert_self]
  · exact mem_input_db_mergeCrash_mono I2 S (mem_input_db_mergeCrash_self s I1 S)
  · exact mem_input_db_mergeCrash_self _ I2 S

/-- C3: the corpus-state invariant holds after every sequence of merge
operations starting from the default (empty) state: `input_list` and
`input_db` have equal length, each unique input appears exactly once in
each, `unique_actions` and `unique_action_set` have equal length, and
every value stored in `coverage_db` is a member of `input_db`. -/
theorem corpus_state_invariant (ops : List MergeOp) :
    (applyOps initStats ops).input_list.length
      = (applyOps initStats ops).input_db.length ∧
    (applyOps initStats ops).input_list.Nodup ∧
    (applyOps initStats ops).input_db.Nodup ∧
    (∀ i : FuzzInput, i ∈ (applyOps initStats ops).input_list
      ↔ i ∈ (applyOps initStats ops).input_db) ∧
    (applyOps initStats ops).unique_actions.length
      = (applyOps initStats ops).unique_action_set.length ∧
    ∀ kv ∈ (applyOps initStats ops).coverage_db,
      kv.2 ∈ (applyOps initStats ops).input_db := by
  have w := WF_applyOps initStats WF_initStats ops
  exact ⟨by rw [w.dbEq], w.dbEq ▸ w.nodup, w.nodup,
    fun i => by rw [w.dbEq], by rw [w.uaEq], w.covMem⟩

/-- Witness for C3 on the concrete operation sequence `opsSample`. -/
theorem corpus_state_invariant_witness :
    (applyOps initStats opsSample).input_list.length
      = (applyOps initStats opsSample).input_db.length ∧
    (applyOps initStats opsSample).input_list.Nodup ∧
    (applyOps initStats opsSample).input_db.Nodup ∧
    (∀ i : FuzzInput, i ∈ (applyOps initStats opsSample).input_list
      ↔ i ∈ (applyOps initStats opsSample).input_db) ∧
    (applyOps initStats opsSample).unique_actions.length
      = (applyOps initStats opsSample).unique_action_set.length ∧
    ∀ kv ∈ (applyOps initStats opsSample).coverage_db,
      kv.2 ∈ (applyOps initStats opsSample).input_db :=
  corpus_state_invariant opsSample

/-- C10: each structurally distinct input is persisted at most once per
process.  After any sequence of merge operations from the default state
the sequence of `record_input` calls is duplicate-free, and a further
coverage or crash merge of an input already present in the global
`input_db` performs no new `record_input` call and pushes nothing onto
`input_list`. -/
theorem input_persisted_at_most_once (ops : List MergeOp) (inp : FuzzInput)
    (key : CovKey) (sig : String)
    (hmem : inp ∈ (applyOps initStats ops).input_db) :
    (applyOps initStats ops).persisted.Nodup ∧
    (applyOp (applyOps initStats ops) (MergeOp.cov inp key)).persisted
      = (applyOps initStats ops).persisted ∧
    (applyOp (applyOps initStats ops) (MergeOp.crash inp sig)).persisted
      = (applyOps initStats ops).persisted ∧
    (applyOp (applyOps initStats ops) (MergeOp.cov inp key)).input_list
      = (applyOps initStats ops).input_list ∧
    (applyOp (applyOps initStats ops) (MergeOp.crash inp sig)).input_list
      = (applyOps initStats ops).input_list := by
  have w := WF_applyOps initStats WF_initStats ops
  have hcov := mergeCoverageKey_stable_of_mem key hmem
  have hcr := mergeCrash_stable_of_mem sig hmem
  exact ⟨by rw [w.pers, ← w.dbEq]; exact w.nodup, hcov.1, hcr.1, hcov.2, hcr.2⟩

/-- Witness for C10: after `opsSample`, the input `[Close]` is already
in the corpus and a repeated merge of it changes nothing. -/
theorem input_persisted_at_most_once_witness :
    (applyOps initStats opsSample).persisted.Nodup ∧
    (applyOp (applyOps initStats opsSample)
        (MergeOp.cov [FuzzerAction.Close] ("n", 2))).persisted
      = (applyOps initStats opsSample).persisted ∧
    (applyOp (applyOps initStats opsSample)
        (MergeOp.crash [FuzzerAction.Close] "x")).persisted
      = (applyOps initStats opsSample).persisted ∧
    (applyOp (applyOps initStats opsSample)
        (MergeOp.cov [FuzzerAction.Close] ("n", 2))).input_list
      = (applyOps initStats opsSample).input_list ∧
    (applyOp (applyOps initStats opsSample)
        (MergeOp.crash [FuzzerAction.Close] "x")).input_list
      = (applyOps initStats opsSample).input_list :=
  input_persisted_at_most_once opsSample [FuzzerAction.Close] ("n", 2) "x"
    (by decide)

/-! Mutation-engine facts: under the caller precondition that the
corpus is non-empty, every `%` in `mutate` has a positive divisor, so
no pass and no seed selection can panic. -/

theorem checkedMod_pos (a : Nat) {b : Nat} (h : b ≠ 0) :
    checkedMod a b = some (a % b) := by
  simp [checkedMod, h]

theorem checkedMod_succ (a b : Nat) :
    checkedMod a (b + 1) = some (a % (b + 1)) :=
  checkedMod_pos a (Nat.succ_ne_zero b)

theorem spliceOp_isSome (stats : Statistics) (rng : RngStream) (k : Nat)
    (input : List FuzzerAction) (h : stats.input_list ≠ []) :
    ∃ r, spliceOp stats rng k input = some r := by
  have hs : stats.input_list.length ≠ 0 := by
    simpa [List.length_eq_zero] using h
  unfold spliceOp
  by_cases h0 : input.length = 0
  · rw [if_pos h0]; exact ⟨_, rfl⟩
  · rw [if_neg h0]
    rw [checkedMod_pos (rng k) h0]
    simp only [Option.bind_eq_bind, Option.some_bind]
    rw [checkedMod_succ]
    simp only [Option.some_bind]
    rw [checkedMod_pos (rng (k+3)) hs]
    simp only [Option.some_bind]
    have hlt : rng (k+3) % stats.input_list.length < stats.input_list.length :=
      Nat.mod_lt _ (Nat.pos_of_ne_zero hs)
    rw [List.get?_eq_get hlt]
    simp only [Option.some_bind]
    by_cases hd : (stats.input_list.get ⟨rng (k+3) % stats.input_list.length, hlt⟩).length = 0
    · rw [if_pos hd]; exact ⟨_, rfl⟩
    · rw [if_neg hd]
      rw [checkedMod_pos (rng (k+4)) hd]
      simp only [Option.some_bind]
      rw [checkedMod_succ]
      simp only [Option.some_bind]
      exact ⟨_, rfl⟩

theorem deleteOp_isSome (rng : RngStream) (k : Nat)
    (input : List FuzzerAction) :
    ∃ r, deleteOp rng k input = some r := by
  unfold deleteOp
  by_cases h0 : input.length = 0
  · rw [if_pos h0]; exact ⟨_, rfl⟩
  · rw [if_neg h0]
    rw [checkedMod_pos (rng k) h0]
    simp only [Option.bind_eq_bind, Option.some_bind]
    rw [checkedMod_succ]
    simp only [Option.some_bind]
    exact ⟨_, rfl⟩

theorem repeatOp_isSome (rng : RngStream) (k : Nat)
    (input : List FuzzerAction) :
    ∃ r, repeatOp rng k input = some r := by
  unfold repeatOp
  by_cases h0 : input.length = 0
  · rw [if_pos h0]; exact ⟨_, rfl⟩
  · rw [if_neg h0]
    rw [checkedMod_pos (rng k) h0]
    simp only [Option.bind_eq_bind, Option.some_bind]
    rw [checkedMod_succ]
    simp only [Option.some_bind]
    have hlt : rng k % input.length < input.length :=
      Nat.mod_lt _ (Nat.pos_of_ne_zero h0)
    rw [List.get?_eq_get hlt]
    simp only [Option.some_bind]
    exact ⟨_, rfl⟩

theorem insertSliceOp_isSome (stats : Statistics) (rng : RngStream) (k : Nat)
    (input : List FuzzerAction) (h : stats.input_list ≠ []) :
    ∃ r, insertSliceOp stats rng k input = some r := by
  have hs : stats.input_list.length ≠ 0 := by
    simpa [List.length_eq_zero] using h
  unfold insertSliceOp
  by_cases h0 : input.length = 0
  · rw [if_pos h0]; exact ⟨_, rfl⟩
  · rw [if_neg h0]
    rw [checkedMod_pos (rng k) h0]
    simp only [Option.bind_eq_bind, Option.some_bind]
    rw [checkedMod_pos (rng (k+1)) hs]
    simp only [Option.some_bind]
    have hlt : rng (k+1) % stats.input_list.length < stats.input_list.length :=
      Nat.mod_lt _ (Nat.pos_of_ne_zero hs)
    rw [List.get?_eq_get hlt]
    simp only [Option.some_bind]
    by_cases hd : (stats.input_list.get ⟨rng (k+1) % stats.input_list.length, hlt⟩).length = 0
    · rw [if_pos hd]; exact ⟨_, rfl⟩
    · rw [if_neg hd]
      rw [checkedMod_pos (rng (k+2)) hd]
      simp only [Option.some_bind]
      rw [checkedMod_succ]
      simp only [Option.some_bind]
      exact ⟨_, rfl⟩

theorem insertKnownOp_isSome (stats : Statistics) (rng : RngStream) (k : Nat)
    (input : List FuzzerAction) :
    ∃ r, insertKnownOp stats rng k input = some r := by
  unfold insertKnownOp
  by_cases h0 : stats.unique_actions.length = 0 ∨ input.length = 0
  · rw [if_pos h0]; exact ⟨_, rfl⟩
  · rw [if_neg h0]
    push_neg at h0
    obtain ⟨hu, hi⟩ := h0
    rw [checkedMod_pos (rng k) hu]
    simp only [Option.bind_eq_bind, Option.some_bind]
    have hlt : rng k % stats.unique_actions.length < stats.unique_actions.length :=
      Nat.mod_lt _ (Nat.pos_of_ne_zero hu)
    rw [List.get?_eq_get hlt]
    simp only [Option.some_bind]
    rw [checkedMod_pos (rng (k+1)) hi]
    simp only [Option.some_bind]
    exact ⟨_, rfl⟩

theorem dispatchOp_isSome (stats : Statistics) (rng : RngStream) (k : Nat)
    (input : List FuzzerAction) (h : stats.input_list ≠ []) (sel : Nat)
    (hsel : sel < 5) : ∃ r, dispatchOp stats rng sel k input = some r := by
  rcases sel with _|_|_|_|_|m
  · exact spliceOp_isSome stats rng k input h
  · exact deleteOp_isSome rng k input
  · exact repeatOp_isSome rng k input
  · exact insertSliceOp_isSome stats rng k input h
  · exact insertKnownOp_isSome stats rng k input
  · omega

theorem mutLoop_isSome (stats : Statistics) (rng : RngStream)
    (h : stats.input_list ≠ []) :
    ∀ (n k : Nat) (input : List FuzzerAction),
      ∃ r, mutLoop stats rng k n input = some r := by
  intro n
  induction n with
  | zero => exact fun k input => ⟨(input, k), rfl⟩
  | succ n ih =>
    intro k input
    obtain ⟨st, hst⟩ := dispatchOp_isSome stats rng (k+1) input h (rng k % 5)
      (Nat.mod_lt _ (by norm_num))
    obtain ⟨r, hr⟩ := ih st.2 st.1
    refine ⟨r, ?_⟩
    simp only [mutLoop]
    rw [checkedMod_pos (rng k) (by norm_num : (5:Nat) ≠ 0)]
    simp only [Option.bind_eq_bind, Option.some_bind]
    rw [hst]
    simp only [Option.some_bind]
    exact hr

/-- C5: safety of `mutate` under its precondition.  Whenever
`input_list` is non-empty, every `value % n` that `mutate` evaluates
(seed selection, operator selection, donor selection, slice indices,
and the `% 64 + 1` bounds) has a positive modulus, so `mutate` returns
a mutated action sequence instead of panicking: in the `Option`
embedding, where every Rust `%` is a `checkedMod` that fails on a zero
divisor, the result is always `some`. -/
theorem mutate_never_mods_by_zero (stats : Statistics) (rng : RngStream)
    (h : stats.input_list ≠ []) : (mutate stats rng).isSome := by
  have hs : stats.input_list.length ≠ 0 := by
    simpa [List.length_eq_zero] using h
  unfold mutate
  rw [checkedMod_pos (rng 0) hs]
  simp only [Option.bind_eq_bind, Option.some_bind]
  have hlt : rng 0 % stats.input_list.length < stats.input_list.length :=
    Nat.mod_lt _ (Nat.pos_of_ne_zero hs)
  rw [List.get?_eq_get hlt]
  simp only [Option.some_bind]
  obtain ⟨r, hr⟩ := mutLoop_isSome stats rng h (numPasses rng) 2 _
  rw [hr]
  simp only [Option.some_bind, Option.isSome_some]

/-- Witness for C5: a corpus holding one (empty) input and the all-zero
RNG stream. -/
theorem mutate_never_mods_by_zero_witness :
    (mutate ({ input_list := [[]] } : Statistics) (fun _ => 0)).isSome = true :=
  mutate_never_mods_by_zero { input_list := [[]] } (fun _ => 0) (by simp)

/-- Counterexample to C6 as stated: when the corpus-wide
`unique_actions` registry is empty, the Insert-known-action pass on the
non-empty working input `[Close]` is skipped (lib.rs line 174 guards on
`stats.unique_actions.len() == 0` as well), so the output has length 1,
not `len(w) + 1 = 2`. -/
theorem mutation_length_bounds_counterexample :
    insertKnownOp initStats (fun _ => 0) 0 [FuzzerAction.Close]
      = some ([FuzzerAction.Close], 0) ∧
    ¬ ([FuzzerAction.Close] : List FuzzerAction).length =
        ([FuzzerAction.Close] : List FuzzerAction).length + 1 :=
  ⟨by decide, by decide⟩

/-- C6 (amended): mutation length bounds for a single pass on working
input `w`.  Delete yields `len(output) ≤ len(w)`; Repeat yields
`len(output) ≥ len(w)`; Insert-known-action yields
`len(output) = len(w) + 1` whenever `w` is non-empty AND the corpus-wide
`unique_actions` registry is non-empty (with an empty registry the pass
is a skipped no-op — the amendment the code forces). -/
theorem mutation_length_bounds (stats : Statistics) (rng : RngStream)
    (k : Nat) (w out₁ out₂ out₃ : List FuzzerAction) (k₁ k₂ k₃ : Nat)
    (h₁ : deleteOp rng k w = some (out₁, k₁))
    (h₂ : repeatOp rng k w = some (out₂, k₂))
    (h₃ : insertKnownOp stats rng k w = some (out₃, k₃)) :
    out₁.length ≤ w.length ∧ w.length ≤ out₂.length ∧
    (w ≠ [] → stats.unique_actions ≠ [] → out₃.length = w.length + 1) := by
  refine ⟨?_, ?_, ?_⟩
  · -- Delete bound, for every working input
    by_cases hw0 : w.length = 0
    · rw [deleteOp, if_pos hw0] at h₁
      simp only [Option.some.injEq, Prod.mk.injEq] at h₁
      obtain ⟨hout, -⟩ := h₁
      subst hout
      exact Nat.le_refl _
    · have hwlt : rng k % w.length < w.length :=
        Nat.mod_lt _ (Nat.pos_of_ne_zero hw0)
      rw [deleteOp, if_neg hw0, checkedMod_pos (rng k) hw0] at h₁
      simp only [Option.bind_eq_bind, Option.some_bind] at h₁
      rw [checkedMod_succ] at h₁
      simp only [Option.some_bind, Option.some.injEq, Prod.mk.injEq] at h₁
      obtain ⟨hout, -⟩ := h₁
      subst hout
      have h1 : min (rng k % w.length +
          rng (k+1) % (rng (k+2) % 64 + 1)) w.length ≤ w.length :=
        Nat.min_le_right _ _
      have h2 : rng k % w.length ≤ min (rng k % w.length +
          rng (k+1) % (rng (k+2) % 64 + 1)) w.length :=
        le_min (Nat.le_add_right _ _) (Nat.le_of_lt hwlt)
      simp only [List.length_append, List.length_take, List.length_drop]
      omega
  · -- Repeat bound, for every working input
    by_cases hw0 : w.length = 0
    · rw [repeatOp, if_pos hw0] at h₂
      simp only [Option.some.injEq, Prod.mk.injEq] at h₂
      obtain ⟨hout, -⟩ := h₂
      subst hout
      exact Nat.le_refl _
    · have hwlt : rng k % w.length < w.length :=
        Nat.mod_lt _ (Nat.pos_of_ne_zero hw0)
      rw [repeatOp, if_neg hw0, checkedMod_pos (rng k) hw0] at h₂
      simp only [Option.bind_eq_bind, Option.some_bind] at h₂
      rw [checkedMod_succ] at h₂
      simp only [Option.some_bind] at h₂
      rw [List.get?_eq_get hwlt] at h₂
      simp only [Option.some_bind, Option.some.injEq, Prod.mk.injEq] at h₂
      obtain ⟨hout, -⟩ := h₂
      subst hout
      simp only [List.length_append, List.length_take, List.length_drop,
        List.length_replicate]
      omega
  · -- Insert-known-action equality, under its two emptiness conditions
    intro hw hu
    have hw0 : w.length ≠ 0 := by simpa [List.length_eq_zero] using hw
    have hu0 : stats.unique_actions.length ≠ 0 := by
      simpa [List.length_eq_zero] using hu
    have hcond : ¬ (stats.unique_actions.length = 0 ∨ w.length = 0) := by
      push_neg
      exact ⟨hu0, hw0⟩
    rw [insertKnownOp, if_neg hcond, checkedMod_pos (rng k) hu0] at h₃
    simp only [Option.bind_eq_bind, Option.some_bind] at h₃
    have hult : rng k % stats.unique_actions.length <
        stats.unique_actions.length :=
      Nat.mod_lt _ (Nat.pos_of_ne_zero hu0)
    rw [List.get?_eq_get hult] at h₃
    simp only [Option.some_bind] at h₃
    rw [checkedMod_pos (rng (k+1)) hw0] at h₃
    simp only [Option.some_bind, Option.some.injEq, Prod.mk.injEq] at h₃
    obtain ⟨hout, -⟩ := h₃
    subst hout
    have hplt : rng (k+1) % w.length < w.length :=
      Nat.mod_lt _ (Nat.pos_of_ne_zero hw0)
    simp only [List.length_append, List.length_take, List.length_drop,
      List.length_singleton]
    omega

/-- Witness for C6 (amended) on the working input `[Close]`, a
singleton registry and the all-zero RNG stream. -/
theorem mutation_length_bounds_witness :
    ([FuzzerAction.Close] : List FuzzerAction).length
      ≤ ([FuzzerAction.Close] : List FuzzerAction).length ∧
    ([FuzzerAction.Close] : List FuzzerAction).length
      ≤ ([FuzzerAction.Close] : List FuzzerAction).length ∧
    ([FuzzerAction.Close, FuzzerAction.Close] : List FuzzerAction).length
      = ([FuzzerAction.Close] : List FuzzerAction).length + 1 := by
  have h := mutation_length_bounds
    { input_list := [[]], unique_actions := [FuzzerAction.Close] }
    (fun _ => 0) 0 [FuzzerAction.Close] [FuzzerAction.Close]
    [FuzzerAction.Close] [FuzzerAction.Close, FuzzerAction.Close] 3 3 2
    (by decide) (by decide) (by decide)
  exact ⟨h.1, h.2.1, h.2.2 (by decide) (by decide)⟩

/-- C7: with a non-empty corpus, `mutate` selects an existing input of
`input_list` (at random index `rng 0 % input_list.length`) as the seed,
works on a copy, and applies `numPasses rng = (rng 1 & 0x1f) + 1`
mutation passes — between 1 and 32 inclusive — where each pass
dispatches on `rand() % 5` among exactly the five operators of
`dispatchOp` (Splice, Delete, Repeat, Insert-slice,
Insert-known-action). -/
theorem mutate_seed_and_pass_structure (stats : Statistics)
    (rng : RngStream) (h : stats.input_list ≠ []) :
    ∃ seed ∈ stats.input_list,
      seed = stats.input_list.getD (rng 0 % stats.input_list.length) [] ∧
      mutate stats rng
        = Option.map Prod.fst (mutLoop stats rng 2 (numPasses rng) seed) ∧
      1 ≤ numPasses rng ∧ numPasses rng ≤ 32 ∧
      ∀ (k n : Nat) (input : List FuzzerAction),
        mutLoop stats rng k (n+1) input =
          (dispatchOp stats rng (rng k % 5) (k+1) input).bind
            (fun step => mutLoop stats rng step.2 n step.1) := by
  have hs : stats.input_list.length ≠ 0 := by
    simpa [List.length_eq_zero] using h
  have hlt : rng 0 % stats.input_list.length < stats.input_list.length :=
    Nat.mod_lt _ (Nat.pos_of_ne_zero hs)
  refine ⟨stats.input_list.get ⟨rng 0 % stats.input_list.length, hlt⟩,
    List.get_mem _ _ _, ?_, ?_, ?_, ?_, ?_⟩
  · rw [List.getD_eq_get?, List.get?_eq_get hlt, Option.getD_some]
  · unfold mutate
    rw [checkedMod_pos (rng 0) hs]
    simp only [Option.bind_eq_bind, Option.some_bind]
    rw [List.get?_eq_get hlt]
    simp only [Option.some_bind]
    obtain ⟨r, hr⟩ := mutLoop_isSome stats rng h (numPasses rng) 2
      (stats.input_list.get ⟨rng 0 % stats.input_list.length, hlt⟩)
    rw [hr]
    rfl
  · exact Nat.succ_le_succ (Nat.zero_le _)
  · have hle : rng 1 &&& 0x1f ≤ 0x1f := Nat.and_le_right
    unfold numPasses
    omega
  · intro k n input
    simp only [mutLoop]
    rw [checkedMod_pos (rng k) (by norm_num : (5:Nat) ≠ 0)]
    simp only [Option.bind_eq_bind, Option.some_bind]

/-- Witness for C7: the singleton corpus `[[]]` and the all-zero RNG
stream. -/
theorem mutate_seed_and_pass_structure_witness :
    ∃ seed ∈ ({ input_list := [[]] } : Statistics).input_list,
      seed = ({ input_list := [[]] } : Statistics).input_list.getD
        ((fun _ => 0 : RngStream) 0 %
          ({ input_list := [[]] } : Statistics).input_list.length) [] ∧
      mutate { input_list := [[]] } (fun _ => 0)
        = Option.map Prod.fst (mutLoop { input_list := [[]] } (fun _ => 0) 2
            (numPasses (fun _ => 0)) seed) ∧
      1 ≤ numPasses (fun _ => 0) ∧ numPasses (fun _ => 0) ≤ 32 ∧
      ∀ (k n : Nat) (input : List FuzzerAction),
        mutLoop { input_list := [[]] } (fun _ => 0) k (n+1) input =
          (dispatchOp { input_list := [[]] } (fun _ => 0)
              ((fun _ => 0 : RngStream) k % 5) (k+1) input).bind
            (fun step => mutLoop { input_list := [[]] } (fun _ => 0)
              step.2 n step.1) :=
  mutate_seed_and_pass_structure { input_list := [[]] } (fun _ => 0)
    (by simp)

/-! PRNG facts. -/

theorem U64_pos : 0 < U64 := by unfold U64; positivity

theorem nat_shiftRight_le_self (a n : Nat) : a >>> n ≤ a := by
  rw [Nat.shiftRight_eq_div_pow]
  exact Nat.div_le_self _ _

theorem windowRand_eq_xorshiftStep (s : Nat) :
    windowRand s = (xorshiftStep s, xorshiftStep s) := by
  unfold windowRand xorshiftStep xorShiftLeft xorShiftRight U64
  have h1 : (s ^^^ (s <<< 13)) % 2 ^ 64 < 2 ^ 64 :=
    Nat.mod_lt _ (by positivity)
  have h2 : ((s ^^^ (s <<< 13)) % 2 ^ 64) >>> 17 < 2 ^ 64 :=
    lt_of_le_of_lt (nat_shiftRight_le_self _ _) h1
  have h3 : ((s ^^^ (s <<< 13)) % 2 ^ 64) ^^^
      (((s ^^^ (s <<< 13)) % 2 ^ 64) >>> 17) < 2 ^ 64 :=
    Nat.xor_lt_two_pow h1 h2
  rw [Nat.mod_eq_of_lt h3]

/-- C9: one `Window::rand` step transforms the 64-bit state by
`s ^= s << 13; s ^= s >> 17; s ^= s << 43` with wrapping 64-bit
shifts/xors, stores the new state and returns exactly the stored value,
the result is again a 64-bit value, and for a fixed seed the output
sequence is the deterministic iteration of the step function. -/
theorem window_rand_spec (seed n : Nat) :
    windowRand seed = (xorshiftStep seed, xorshiftStep seed) ∧
    (windowRand seed).1 = (windowRand seed).2 ∧
    (windowRand seed).2 < U64 ∧
    randSeq seed n = xorshiftStep^[n+1] seed := by
  refine ⟨windowRand_eq_xorshiftStep seed, rfl, ?_, ?_⟩
  · show (_ ^^^ _) % U64 < U64
    exact Nat.mod_lt _ U64_pos
  · unfold randSeq
    rw [show (fun s => (windowRand s).1) = xorshiftStep from
      funext fun s => by rw [windowRand_eq_xorshiftStep]]

/-! Persistence-path facts. -/

theorem hexDigit_mem_alphabet :
    ∀ m : Nat, m < 16 → hexDigit m ∈ "0123456789abcdef".data := by decide

theorem length_hex16 (n : Nat) : (hex16 n).length = 16 := by
  simp [hex16]

theorem mem_hex16 (n : Nat) :
    ∀ c ∈ hex16 n, c ∈ "0123456789abcdef".data := by
  intro c hc
  simp only [hex16, List.mem_map] at hc
  obtain ⟨i, -, rfl⟩ := hc
  exact hexDigit_mem_alphabet _ (Nat.mod_lt _ (by norm_num))

/-- C8: persistence idempotence.  The file path of a persisted input is
`inputs/<16-hex-digit-content-hash>.input` where the hash is a pure
function of the action sequence: persisting two structurally equal
inputs, at any two times, yields the same path. -/
theorem record_path_content_hash (i j : FuzzInput) (hij : i = j) :
    recordPath i = recordPath j ∧
    ∃ hex : String, recordPath i = "inputs/" ++ hex ++ ".input" ∧
      hex.length = 16 ∧ ∀ c ∈ hex.data, c ∈ "0123456789abcdef".data := by
  subst hij
  refine ⟨rfl, ⟨String.mk (hex16 (defaultHash i)), rfl, ?_, ?_⟩⟩
  · show (String.mk (hex16 (defaultHash i))).length = 16
    simpa [String.length] using length_hex16 (defaultHash i)
  · intro c hc
    exact mem_hex16 _ c hc

/-- Witness for C8: the empty action sequence, persisted twice. -/
theorem record_path_content_hash_witness :
    recordPath [] = recordPath [] ∧
    ∃ hex : String, recordPath [] = "inputs/" ++ hex ++ ".input" ∧
      hex.length = 16 ∧ ∀ c ∈ hex.data, c ∈ "0123456789abcdef".data :=
  record_path_content_hash [] [] rfl

/-! Generator facts. -/

/-- Counterexample to C4 as stated: with the target window alive but
reporting a successful, EMPTY control enumeration, the generator does
not return `Ok` with the actions recorded so far (`Ok([])` here) — it
panics on `rng.rand() % sub_windows.len()` with a zero divisor
(lib.rs line 210). -/
theorem generator_empty_enum_counterexample :
    generator envEmptyEnum (fun _ => 0) 3 = GenResult.panicked ∧
    GenResult.panicked ≠ GenResult.ok [] :=
  ⟨by decide, by decide⟩

/-- C4 (amended): the generator loop terminates normally exactly when
control enumeration FAILS (returns `Err`), and on that path it returns
`Ok` with the actions recorded so far; as long as enumeration keeps
succeeding the loop never returns `Ok`, whatever the action count or
fuel — it never terminates based on action count.  (A successful but
empty enumeration is not a normal-return path: the code panics there,
which is the amendment the code forces on the claim.) -/
theorem generator_termination
    (env : GenEnv) (rng : RngStream) (i k : Nat)
    (acts : List FuzzerAction) (fuel : Nat)
    (hfail : env.windows i = none)
    (env' : GenEnv) (hok : ∀ j, env'.windows j ≠ none)
    (i' k' : Nat) (acts' l : List FuzzerAction) (fuel' : Nat) :
    genLoop env rng i k acts (fuel+1) = GenResult.ok acts ∧
    genLoop env' rng i' k' acts' fuel' ≠ GenResult.ok l := by
  constructor
  · simp [genLoop, hfail]
  · induction fuel' generalizing i' k' acts' with
    | zero => simp [genLoop]
    | succ fuel ih =>
      cases hw : env'.windows i' with
      | none => exact absurd hw (hok i')
      | some ws =>
        simp only [genLoop, hw]
        by_cases hl : ws.length = 0
        · simp [hl]
        · rw [if_neg hl]
          repeat' split
          all_goals first
          | exact ih _ _ _
          | simp

/-- Witness for C4 (amended): an environment that fails enumeration at
once returns `Ok([])`; an environment whose enumeration always succeeds
never returns `Ok`. -/
theorem generator_termination_witness :
    genLoop envFailNow (fun _ => 0) 0 0 [] 3 = GenResult.ok [] ∧
    genLoop envAlwaysUp (fun _ => 0) 0 0 [] 2 ≠ GenResult.ok [] :=
  generator_termination envFailNow (fun _ => 0) 0 0 [] 2 rfl
    envAlwaysUp (fun j => by simp [envAlwaysUp]) 0 0 [] [] 2

end Guifuzz
